import Mathlib

/-!
Verification of the CO2FreiMon display firmware core
(`src/Firmware/Graphics.cpp` / `src/Firmware/Graphics.h` and
`src/Firmware/bmpDraw.cpp` / `src/Firmware/bmpDraw.h`).

The C++ code is shallowly embedded as follows.

* Machine integers are `Nat` (or `Int` where the C type is signed), with
  wraparound (`% 65536`, `% 4294967296`, two's-complement reinterpretation)
  applied exactly where the C types force it.
* Arduino `String` values are `List Nat` — the byte sequence of the string.
* The display is an external collaborator.  Calls the code makes to it are
  recorded as events (`GEv` for the text/rectangle surface, `Ev` for the
  streaming surface used by the bitmap decoder).  Its text-measurement
  primitive `getTextBounds` is modelled analytically by the fixed
  character-cell geometry of the Adafruit classic font
  (width = length × textsize × 6, height = textsize × 8, anchored at the
  cursor), which is the measurement model the specification's §3 assumes.
* The SD storage surface is an external collaborator.  A file is modelled
  as an unbounded byte stream `f : Nat → Nat` (byte value at each offset;
  only offsets the theorems' hypotheses keep inside the actual file content
  matter) plus an open-success flag (`Option`).  `read` fills the 150-byte
  pixel buffer from the current position and advances it; `seek` moves it.
* Arduino's numeric-to-string conversions (`String(val, DEC)`,
  `String(val, 2)`) are external library routines; they are modelled by
  `decString` (decimal digits) and `formatFloat2` (two fixed decimal
  places with round-half-up, the `dtostrf` behaviour), with the `float`
  argument represented exactly as a rational number.
-/

/-! ### Machine-integer helpers -/

/-- Reinterpretation of an integer as a `uint16_t` (C assignment of a wider
expression to a 16-bit unsigned member). -/
def u16 (z : Int) : Nat := (z % 65536).toNat

/-- Reinterpretation of a `uint16_t` bit pattern as `int16_t` (C conversion
when a `uint16_t` is passed to a signed 16-bit parameter). -/
def toInt16 (n : Nat) : Int :=
  if n % 65536 < 32768 then (n % 65536 : Nat) else (n % 65536 : Int) - 65536

/-- Reinterpretation of an integer value as `int16_t` (C assignment of a
wider arithmetic expression to an `int16_t` variable). -/
def toInt16i (z : Int) : Int :=
  if z % 65536 < 32768 then z % 65536 else z % 65536 - 65536

/-- Reinterpretation of a `uint32_t` bit pattern as a 32-bit signed `int`
(C assignment `int bmpWidth = read32(...)`). -/
def toInt32 (n : Nat) : Int :=
  if n % 4294967296 < 2147483648 then (n % 4294967296 : Nat)
  else (n % 4294967296 : Int) - 4294967296

/-! ### Graphics.h constants -/

/-- Character cell width in pixels (`#define CHAR_W 6` in Graphics.h). -/
def CHAR_W : Nat := 6

/-- Character cell height in pixels (`#define CHAR_H 8` in Graphics.h). -/
def CHAR_H : Nat := 8

/-- Alignment flag `RIGHT` (`0x1`). `LEFT` and `TOP` are `0x0`, `BOTTOM` is `0x2`. -/
def RIGHT : Nat := 1

/-- Alignment flag `BOTTOM` (`0x2`). -/
def BOTTOM : Nat := 2

/-- The `CORRECT_DEGREE_CHAR` macro of Graphics.h: replace every occurrence
of the two-byte UTF-8 sequence for the degree sign (0xC2 0xB0) by the
single display byte 248. -/
def correctDegree : List Nat → List Nat
  | [] => []
  | 194 :: 176 :: rest => 248 :: correctDegree rest
  | b :: rest => b :: correctDegree rest

/-- Model of Arduino `String(val, DEC)`: the decimal digit bytes of a
natural number. -/
def decString (n : Nat) : List Nat :=
  (Nat.toDigits 10 n).map Char.toNat

/-- Digit string for a number of hundredths: integer part, a dot, and two
fractional digits. -/
def fmtHundredthsNat (m : Nat) : List Nat :=
  decString (m / 100) ++ (46 :: [48 + m % 100 / 10, 48 + m % 10])

/-- Signed variant of `fmtHundredthsNat`. -/
def fmtHundredths (n : Int) : List Nat :=
  if n < 0 then 45 :: fmtHundredthsNat n.natAbs else fmtHundredthsNat n.toNat

/-- Model of Arduino `String(val, 2)` (`dtostrf` with two decimal places,
round half up) on a `float` argument represented exactly as a rational. -/
def formatFloat2 (q : Rat) : List Nat :=
  fmtHundredths ⌊q * 100 + 1 / 2⌋

/-! ### The display's text/rectangle surface

Events recording the calls a `Label` makes on the display. -/

/-- Display events of the text surface: one filled rectangle, or one printed
text run (with the state — position, size, subscript, color — it is printed
under). -/
inductive GEv where
  | fillRect (x y : Int) (w h : Nat) (color : Nat)
  | printText (x y : Nat) (name : List Nat) (size subscript color : Nat)
deriving DecidableEq, Repr

/-! ### Label (Graphics.cpp) -/

/-- The `Label` class: members `_x, _y, _color, _size, _name, _subscript,
_alignment` in declaration order.  `x`/`y`/`color` are `uint16_t`,
`size`/`subscript`/`alignment` are `uint8_t`, `name` is the `String`. -/
structure Label where
  x : Nat
  y : Nat
  color : Nat
  size : Nat
  name : List Nat
  subscript : Nat
  alignment : Nat
deriving DecidableEq, Repr

namespace Label

/-- Model of `Label::correctForAlignment(void)` (Graphics.cpp lines 146-159): resolve
the requested anchor into the stored top-left according to the alignment
flags.  The subtractions are `uint16_t` arithmetic. -/
def correctForAlignment (l : Label) : Label :=
  let l1 :=
    if l.alignment &&& RIGHT = RIGHT then
      let x1 := u16 ((l.x : Int) - l.name.length * l.size * CHAR_W)
      let x2 := if l.subscript ≠ 0 then u16 ((x1 : Int) - CHAR_W) else x1
      { l with x := x2 }
    else l
  if l1.alignment &&& BOTTOM = BOTTOM then
    { l1 with y := u16 ((l1.y : Int) - l1.size * CHAR_H) }
  else l1

/-- Model of `Label::correctForAlignment(String, uint8_t)` (Graphics.cpp lines
163-175): on a name change, shift the stored x anchor of a right-aligned
label by the pixel-width difference.  `dif` is an `int16_t`; each step of
its computation is reduced to 16-bit two's complement. -/
def correctForAlignmentNew (l : Label) (name : List Nat) (subscript : Nat) : Label :=
  if l.alignment &&& RIGHT = RIGHT then
    let dif0 : Int := toInt16i (((name.length : Int) - l.name.length) * l.size * CHAR_W)
    let dif1 : Int := if subscript = 0 ∧ l.subscript ≠ 0 then toInt16i (dif0 + CHAR_W) else dif0
    let dif2 : Int := if subscript ≠ 0 ∧ l.subscript = 0 then toInt16i (dif1 - CHAR_W) else dif1
    { l with x := u16 ((l.x : Int) - dif2) }
  else l

/-- The `Label` constructor taking a `String` (Graphics.cpp lines 49-57):
store the members, resolve the alignment, then apply `CORRECT_DEGREE_CHAR`
to the stored name (in that order — the raw name length is what alignment
resolution sees).  The constructor also prints; the printed output is the
stored state, which is what the theorems address. -/
def construct (x y : Nat) (name : List Nat) (size color subscript alignment : Nat) : Label :=
  let l : Label := ⟨x, y, color, size, name, subscript, alignment⟩
  let l := l.correctForAlignment
  { l with name := correctDegree l.name }

/-- The `Label` constructor taking a `uint16_t` value (Graphics.cpp lines
60-64): format the value in decimal, or use a single space if it is zero. -/
def ofU16 (x y val size color alignment : Nat) : Label :=
  construct x y (if 0 < val then decString val else [32]) size color 0 alignment

/-- The `Label` constructor taking a `float` value (Graphics.cpp lines
67-71): format the value with two decimal places, or use a single space if
it is not positive. -/
def ofFloat (x y : Nat) (val : Rat) (size color alignment : Nat) : Label :=
  construct x y (if 0 < val then formatFloat2 val else [32]) size color 0 alignment

/-- Model of `Label::erase` (Graphics.cpp lines 98-115).  The display's
`getTextBounds` is modelled analytically (classic-font cell geometry): it
reports the anchor unchanged and width `length × size × CHAR_W`, height
`size × CHAR_H`, as `uint16_t` out-parameters.  For a subscripted label the
height becomes `h/2 + h1` (with `h1` measured at text size `_size - 1`,
a `uint8_t` decrement) and the width loses one `CHAR_W`.  The function
issues exactly one `fillRect`. -/
def eraseEvents (l : Label) (color : Nat) : List GEv :=
  let w0 := l.name.length * l.size * CHAR_W % 65536
  let h0 := l.size * CHAR_H % 65536
  if l.subscript ≠ 0 then
    let h1 := (l.size + 255) % 256 * CHAR_H % 65536
    let h2 := (h0 / 2 + h1) % 65536
    let w2 := u16 ((w0 : Int) - CHAR_W)
    [GEv.fillRect (toInt16 l.x) (toInt16 l.y) w2 h2 color]
  else
    [GEv.fillRect (toInt16 l.x) (toInt16 l.y) w0 h0 color]

/-- Model of `Label::changeName(String, uint8_t)` (Graphics.cpp lines 126-131):
degree-correct the new name, shift the anchor from the old/new content
difference, then store the new name and subscript. -/
def changeName (l : Label) (name : List Nat) (sub : Nat) : Label :=
  let name := correctDegree name
  let l := l.correctForAlignmentNew name sub
  { l with name := name, subscript := sub }

/-- Model of `Label::changeName(uint16_t)` (Graphics.cpp lines 134-137): decimal
conversion, unconditionally (no zero-renders-as-blank rule here). -/
def changeNameU16 (l : Label) (val : Nat) : Label :=
  l.changeName (decString val) 0

/-- Model of `Label::changeName(float)` (Graphics.cpp lines 140-143): two-decimal
conversion, unconditionally. -/
def changeNameFloat (l : Label) (val : Rat) : Label :=
  l.changeName (formatFloat2 val) 0

/-- Model of `Label::print` reduced to its event: the text run printed with the
stored state. -/
def printEv (l : Label) : GEv :=
  GEv.printText l.x l.y l.name l.size l.subscript l.color

end Label

/-! ### ValueBar (Graphics.cpp) -/

/-- The `ValueBar` class: background geometry and color plus its three
labels (`_labels[0]` name, `_labels[1]` value, `_labels[2]` unit). -/
structure ValueBar where
  x : Int
  y : Int
  w : Nat
  h : Nat
  color : Nat
  label0 : Label
  label1 : Label
  label2 : Label
deriving Repr

namespace ValueBar

/-- Model of `ValueBar::refreshValue(uint16_t)` (Graphics.cpp lines 229-233): erase
the value label in the bar's background color, change its name to the new
value, print it. -/
def refreshValueU16 (vb : ValueBar) (val : Nat) : ValueBar × List GEv :=
  let evErase := vb.label1.eraseEvents vb.color
  let l := vb.label1.changeNameU16 val
  ({ vb with label1 := l }, evErase ++ [l.printEv])

/-- Model of `ValueBar::refreshValue(float)` (Graphics.cpp lines 236-240). -/
def refreshValueFloat (vb : ValueBar) (val : Rat) : ValueBar × List GEv :=
  let evErase := vb.label1.eraseEvents vb.color
  let l := vb.label1.changeNameFloat val
  ({ vb with label1 := l }, evErase ++ [l.printEv])

end ValueBar

/-! ### bmpReader (bmpDraw.cpp)

The decoder `bmpReader::draw` is embedded as a function from the file byte
stream and the draw origin to the list of events it performs on the shared
display/storage bus.  `read16`/`read32` advance the file position past the
header; only the position after a fully parsed header (34) is ever used
again, so the header reads are modelled as offset peeks. -/

/-- Bus events performed by `bmpReader::draw`: SD-card open/close, display
transaction begin/end, address-window setup, an SD seek, an SD buffer
refill (`bmpFile.read(sdbuffer, sizeof(sdbuffer))`), and one pushed pixel. -/
inductive Ev where
  | openFile
  | closeFile
  | startWrite
  | endWrite
  | setAddrWindow (x y w h : Int)
  | seekTo (pos : Nat)
  | readBuf
  | pushColor (c : Nat)
deriving DecidableEq, Repr

namespace bmpReader

/-- Size of the pixel buffer: `sizeof(sdbuffer) = 3 * BUFFPIXEL = 150` bytes. -/
def CHUNK : Nat := 150

/-- The decoder's streaming state: the SD file position, the file offset at
which `sdbuffer` was last filled (the buffer's content is the 150 bytes of
the stream starting there), and `buffidx`, the read cursor inside the
buffer (`= CHUNK` forces a refill). -/
structure RdSt where
  filePos : Nat
  bufStart : Nat
  buffidx : Nat
deriving DecidableEq, Repr

/-- Model of `Adafruit_SPITFT::color565(r, g, b)`:
`((r & 0xF8) << 8) | ((g & 0xFC) << 3) | (b >> 3)`. -/
def color565 (r g b : Nat) : Nat :=
  ((r &&& 0xF8) <<< 8) ||| ((g &&& 0xFC) <<< 3) ||| (b >>> 3)

/-- The color pushed for the blue-green-red byte triple found at stream
offset `o` (bytes are taken `uint8_t`, i.e. mod 256). -/
def pixAt (f : Nat → Nat) (o : Nat) : Nat :=
  color565 (f (o + 2) % 256) (f (o + 1) % 256) (f o % 256)

/-- One iteration of the pixel loop (bmpDraw.cpp lines 101-115): refill the
buffer when `buffidx` has reached its end (ending and restarting the display
transaction around the SD read), then consume three bytes `b`, `g`, `r` and
push `color565(r, g, b)`. -/
def pixelStep (f : Nat → Nat) (s : RdSt) : RdSt × List Ev :=
  let (s1, evs) :=
    if CHUNK ≤ s.buffidx then
      (⟨s.filePos + CHUNK, s.filePos, 0⟩, [Ev.endWrite, Ev.readBuf, Ev.startWrite])
    else (s, ([] : List Ev))
  let c := pixAt f (s1.bufStart + s1.buffidx)
  (⟨s1.filePos, s1.bufStart, s1.buffidx + 3⟩, evs ++ [Ev.pushColor c])

/-- The column loop of one scanline: `w` pixel iterations. -/
def rowPixels (f : Nat → Nat) : Nat → RdSt → RdSt × List Ev
  | 0, s => (s, [])
  | n + 1, s =>
    let p := pixelStep f s
    let rest := rowPixels f n p.1
    (rest.1, p.2 ++ rest.2)

/-- One scanline (bmpDraw.cpp lines 82-116): if the file position differs
from the scanline's start offset `pos`, end the display transaction, seek,
force a buffer reload (`buffidx = sizeof(sdbuffer)`) and restart the
transaction; then run the column loop. -/
def rowStep (f : Nat → Nat) (w : Nat) (pos : Nat) (s : RdSt) : RdSt × List Ev :=
  let (s1, evs) :=
    if s.filePos ≠ pos then
      (⟨pos, s.bufStart, CHUNK⟩, [Ev.endWrite, Ev.seekTo pos, Ev.startWrite])
    else (s, ([] : List Ev))
  let rest := rowPixels f w s1
  (rest.1, evs ++ rest.2)

/-- The scanline loop over the list of scanline start offsets. -/
def rowsLoop (f : Nat → Nat) (w : Nat) : List Nat → RdSt → RdSt × List Ev
  | [], s => (s, [])
  | p :: ps, s =>
    let r := rowStep f w p s
    let rest := rowsLoop f w ps r.1
    (rest.1, r.2 ++ rest.2)

/-- Model of `bmpReader::read16`: two little-endian bytes at offset `p`. -/
def read16at (f : Nat → Nat) (p : Nat) : Nat :=
  f p % 256 + 256 * (f (p + 1) % 256)

/-- Model of `bmpReader::read32`: four little-endian bytes at offset `p`. -/
def read32at (f : Nat → Nat) (p : Nat) : Nat :=
  f p % 256 + 256 * (f (p + 1) % 256) + 65536 * (f (p + 2) % 256)
    + 16777216 * (f (p + 3) % 256)

/-- The body of `bmpReader::draw` after a successful open (bmpDraw.cpp
lines 48-120).  Header fields live at their fixed offsets (signature 0,
image offset 10, width 18, height 22, planes 26, depth 28, compression 30);
after the full header parse the file position is 34.  `rowSize` is the C
expression `(bmpWidth * 3 + 3) & ~3` in 32-bit arithmetic on the width's
bit pattern; width and height are reinterpreted as signed 32-bit values, a
negative height selects top-to-bottom row order (`flip = false`).  The crop
clamps the far edges to the display extent. -/
def drawBody (f : Nat → Nat) (x y : Int) (dispW dispH : Nat) : List Ev :=
  if read16at f 0 = 0x4D42 then
    let bmpImageoffset := read32at f 10
    let bmpWidth : Int := toInt32 (read32at f 18)
    let heightRaw : Int := toInt32 (read32at f 22)
    if read16at f 26 = 1 then
      if read16at f 28 = 24 ∧ read32at f 30 = 0 then
        let rowSize : Nat := (read32at f 18 * 3 + 3) % 4294967296 &&& 0xFFFFFFFC
        let flip : Bool := !(heightRaw < 0)
        let bmpHeight : Int := if heightRaw < 0 then -heightRaw else heightRaw
        let w : Int := if (dispW : Int) ≤ x + bmpWidth - 1 then (dispW : Int) - x else bmpWidth
        let h : Int := if (dispH : Int) ≤ y + bmpHeight - 1 then (dispH : Int) - y else bmpHeight
        let posOf : Nat → Nat := fun row =>
          if flip then (bmpImageoffset + (bmpHeight.toNat - 1 - row) * rowSize) % 4294967296
          else (bmpImageoffset + row * rowSize) % 4294967296
        let res := rowsLoop f w.toNat ((List.range h.toNat).map posOf) ⟨34, 0, CHUNK⟩
        Ev.startWrite :: Ev.setAddrWindow x y w h :: (res.2 ++ [Ev.endWrite])
      else []
    else []
  else []

/-- Model of `bmpReader::draw(filename, x, y)` (bmpDraw.cpp lines 25-122): reject an
origin at or beyond the display's right/bottom edge before opening; a failed
open draws nothing; otherwise parse and stream, and close the file on every
exit path.  `file` is `none` when `SD.open` fails. -/
def draw (file : Option (Nat → Nat)) (x y : Int) (dispW dispH : Nat) : List Ev :=
  if (dispW : Int) ≤ x ∨ (dispH : Int) ≤ y then []
  else
    match file with
    | none => []
    | some f => Ev.openFile :: (drawBody f x y dispW dispH ++ [Ev.closeFile])

/-- The colors pushed to the display, in order, extracted from an event
trace. -/
def pushColors (evs : List Ev) : List Nat :=
  evs.filterMap fun e => match e with
    | Ev.pushColor c => some c
    | _ => none

/-- Transaction/storage discipline checker: scans a trace tracking whether
a display transaction is open, failing (`none`) if a storage operation
(seek or buffer refill) happens while one is open; returns the final
open/closed state otherwise. -/
def scanTxn : List Ev → Bool → Option Bool
  | [], b => some b
  | Ev.startWrite :: r, _ => scanTxn r true
  | Ev.endWrite :: r, _ => scanTxn r false
  | Ev.seekTo _ :: r, b => if b then none else scanTxn r false
  | Ev.readBuf :: r, b => if b then none else scanTxn r false
  | _ :: r, b => scanTxn r b

/-- Adjacency checker: state 0 = normal, 1 = the previous event was
`endWrite` (a storage operation is admissible), 2 = the previous event was
a storage operation (the next event must be `startWrite`).  Fails (`none`)
when a seek or refill is not immediately preceded by `endWrite`, or not
immediately followed by `startWrite`. -/
def adjRun : List Ev → Nat → Option Nat
  | [], st => some st
  | e :: r, st =>
    let next : Option Nat :=
      match e, st with
      | Ev.startWrite, 2 => some 0
      | _, 2 => none
      | Ev.seekTo _, 1 => some 2
      | Ev.readBuf, 1 => some 2
      | Ev.seekTo _, _ => none
      | Ev.readBuf, _ => none
      | Ev.endWrite, _ => some 1
      | _, _ => some 0
    match next with
    | none => none
    | some st2 => adjRun r st2

/-- The virtual consumption cursor of a streaming state: the stream offset
the next consumed byte comes from. -/
def vcur (s : RdSt) : Nat :=
  if CHUNK ≤ s.buffidx then s.filePos else s.bufStart + s.buffidx

/-- Streaming-state well-formedness maintained by the pixel loop:
`buffidx` stays a multiple of 3 within the buffer, and while the buffer has
unconsumed bytes the file position sits exactly one whole buffer beyond the
fill offset. -/
def ValidSt (s : RdSt) : Prop :=
  s.buffidx ≤ CHUNK ∧ s.buffidx % 3 = 0 ∧
    (s.buffidx < CHUNK → s.filePos = s.bufStart + CHUNK)

end bmpReader

/-! ### Concrete byte streams used as witnesses and counterexamples -/

/-- A well-formed 1×1 bottom-to-top 24-bit BMP stream: signature "BM",
image offset 54, width 1, height 1, planes 1, depth 24, compression 0;
pixel bytes are 7. -/
def bmpTiny : Nat → Nat := fun n =>
  if n = 0 then 0x42 else if n = 1 then 0x4D else
  if n = 10 then 54 else
  if n = 18 then 1 else
  if n = 22 then 1 else
  if n = 26 then 1 else
  if n = 28 then 24 else
  if n < 54 then 0 else 7

/-- A well-formed 2×2 bottom-to-top 24-bit BMP stream (offset 54, row
stride 8); pixel-area bytes are `n % 256`. -/
def bmpTwo : Nat → Nat := fun n =>
  if n = 0 then 0x42 else if n = 1 then 0x4D else
  if n = 10 then 54 else
  if n = 18 then 2 else
  if n = 22 then 2 else
  if n = 26 then 1 else
  if n = 28 then 24 else
  if n < 54 then 0 else n % 256

/-- A 99×2 top-to-bottom 24-bit BMP stream: declared height −2
(bytes FE FF FF FF), width 99 (row stride 300, three padding bytes per
row), image offset 34 = the file position right after the header parse;
pixel-area bytes are `n % 256`. -/
def bmpNoFlipPad : Nat → Nat := fun n =>
  if n = 0 then 0x42 else if n = 1 then 0x4D else
  if n = 10 then 34 else
  if n = 18 then 99 else
  if n = 22 then 254 else if n = 23 then 255 else
  if n = 24 then 255 else if n = 25 then 255 else
  if n = 26 then 1 else
  if n = 28 then 24 else
  if n < 34 then 0 else n % 256

/-- A 100×2 top-to-bottom 24-bit BMP stream: declared height −2, width 100
(row stride 300, no padding), image offset 54; pixel-area bytes are
`n % 256`. -/
def bmpNoFlipWide : Nat → Nat := fun n =>
  if n = 0 then 0x42 else if n = 1 then 0x4D else
  if n = 10 then 54 else
  if n = 18 then 100 else
  if n = 22 then 254 else if n = 23 then 255 else
  if n = 24 then 255 else if n = 25 then 255 else
  if n = 26 then 1 else
  if n = 28 then 24 else
  if n < 54 then 0 else n % 256

/-- A BMP stream with bit depth 8 instead of 24 (otherwise plausible
header). -/
def bmpDepth8 : Nat → Nat := fun n =>
  if n = 0 then 0x42 else if n = 1 then 0x4D else
  if n = 10 then 54 else
  if n = 18 then 1 else
  if n = 22 then 1 else
  if n = 26 then 1 else
  if n = 28 then 8 else 0

/-! ### Helper lemmas: machine-integer reinterpretations -/

theorem toInt16_eq_of_lt (n : Nat) (h : n < 32768) : toInt16 n = n := by
  unfold toInt16
  rw [Nat.mod_eq_of_lt (by omega)]
  simp [h]

theorem u16_natSub (a b : Nat) (hb : b ≤ a) (ha : a < 65536) :
    u16 ((a : Int) - b) = a - b := by
  unfold u16
  omega

theorem u16_toNat (z : Int) (h0 : 0 ≤ z) (h1 : z < 65536) : (u16 z : Int) = z := by
  unfold u16
  omega

theorem toInt16i_eq (z : Int) (h0 : -32768 ≤ z) (h1 : z < 32768) : toInt16i z = z := by
  unfold toInt16i
  split <;> omega

/-! ### Helper lemmas: Label construction -/

theorem Label.construct_name (x y : Nat) (n : List Nat) (s c sub a : Nat) :
    (Label.construct x y n s c sub a).name = correctDegree n := by
  unfold Label.construct Label.correctForAlignment
  dsimp only
  split <;> (try split) <;> (try split) <;> rfl

theorem Label.changeName_fields (l : Label) (n : List Nat) (sub : Nat) :
    (l.changeName n sub).name = correctDegree n ∧
      (l.changeName n sub).subscript = sub := by
  unfold Label.changeName Label.correctForAlignmentNew
  dsimp only
  exact ⟨rfl, rfl⟩

/-! ### Claim C1: erase rectangle geometry -/

/-- C1: for a non-subscripted Label, `erase` fills exactly one rectangle of
`characterCount × size × CHAR_W` by `size × CHAR_H` at the resolved
top-left; for a subscripted Label (subscript ≥ 1, size ≥ 1) the height is
`size×CHAR_H/2 + (size-1)×CHAR_H` and the width is the non-subscript width
minus one `CHAR_W` (getTextBounds modelled by the analytic cell
geometry). -/
theorem c1_erase_rectangle (l : Label) (c : Nat)
    (hx : l.x < 32768) (hy : l.y < 32768)
    (hs1 : 1 ≤ l.size) (hs2 : l.size < 256)
    (hw : l.name.length * l.size * CHAR_W < 65536) :
    (l.subscript = 0 →
      l.eraseEvents c =
        [GEv.fillRect (l.x : Int) (l.y : Int) (l.name.length * l.size * CHAR_W)
          (l.size * CHAR_H) c]) ∧
    (1 ≤ l.subscript → 1 ≤ l.name.length →
      l.eraseEvents c =
        [GEv.fillRect (l.x : Int) (l.y : Int)
          (l.name.length * l.size * CHAR_W - CHAR_W)
          (l.size * CHAR_H / 2 + (l.size - 1) * CHAR_H) c]) := by
  have hx' := toInt16_eq_of_lt l.x hx
  have hy' := toInt16_eq_of_lt l.y hy
  have hh : l.size * CHAR_H % 65536 = l.size * CHAR_H :=
    Nat.mod_eq_of_lt (by unfold CHAR_H; omega)
  constructor
  · intro hsub
    simp only [Label.eraseEvents, hsub, ne_eq, not_true_eq_false, if_neg,
      Nat.mod_eq_of_lt hw, hh, hx', hy', reduceIte]
  · intro hsub hlen
    have hsub' : l.subscript ≠ 0 := by omega
    have h255 : (l.size + 255) % 256 = l.size - 1 := by omega
    have hw6 : CHAR_W ≤ l.name.length * l.size * CHAR_W := by
      calc CHAR_W = 1 * 1 * CHAR_W := by ring
      _ ≤ l.name.length * l.size * CHAR_W :=
        Nat.mul_le_mul_right _ (Nat.mul_le_mul hlen hs1)
    simp only [Label.eraseEvents, hsub', ne_eq, not_false_eq_true, if_pos,
      Nat.mod_eq_of_lt hw, hh, h255, hx', hy', reduceIte]
    rw [Nat.mod_eq_of_lt (by unfold CHAR_H; omega),
      Nat.mod_eq_of_lt (by unfold CHAR_H at *; omega),
      u16_natSub _ _ hw6 hw]

/-- Witness for C1 at a concrete subscripted label ("CO2" with subscript 3
at size 2, anchored at (10, 20)). -/
theorem c1_erase_rectangle_witness :
    (({ x := 10, y := 20, color := 0, size := 2, name := [67, 79, 50],
        subscript := 3, alignment := 0 } : Label).eraseEvents 5 =
      [GEv.fillRect (10 : Int) (20 : Int) (3 * 2 * CHAR_W - CHAR_W)
        (2 * CHAR_H / 2 + (2 - 1) * CHAR_H) 5]) :=
  (c1_erase_rectangle _ 5 (by decide) (by decide) (by decide) (by decide)
    (by decide)).2 (by decide) (by decide)

/-! ### Claim C3: alignment resolution at construction -/

/-- C3 (code bug evidence): the right-alignment resolution in
`Label::correctForAlignment(void)` subtracts an EXTRA `CHAR_W` for a
subscripted label, although the label's actual footprint (per `print`,
`erase` and `correctForAlignment(String, uint8_t)`) is one `CHAR_W`
NARROWER.  Constructing "CO2" (subscript index 3, size 2) right-aligned at
x = 100: the analytic width of the claim/spec is `3·2·CHAR_W − CHAR_W = 30`,
so the resolved x should be 70; the code resolves it to
`100 − 3·2·CHAR_W − CHAR_W = 58`. -/
theorem c3_alignment_subscript_bug :
    (Label.construct 100 50 [67, 79, 50] 2 0 3 RIGHT).x =
        100 - (3 * 2 * CHAR_W + CHAR_W) ∧
      (Label.construct 100 50 [67, 79, 50] 2 0 3 RIGHT).x ≠
        100 - (3 * 2 * CHAR_W - CHAR_W) := by
  decide

/-! ### Claim C4: changeName position-correction law -/

/-- C4: for a right-aligned Label, `changeName(newName, newSubscript)`
shifts the stored x anchor left by `(L2 − L1) × size × CHAR_W` (L1/L2 the
old/new content lengths), plus one extra `CHAR_W` leftward when the
subscript is lost and one `CHAR_W` rightward when it is gained; the shift
is computed from the OLD stored content and subscript, and the new content
and subscript are stored afterwards. -/
theorem c4_changeName_shift (l : Label) (name : List Nat) (sub : Nat)
    (D : Int)
    (hD : D = ((name.length : Int) - l.name.length) * l.size * CHAR_W
      + (if sub = 0 ∧ l.subscript ≠ 0 then (CHAR_W : Int) else 0)
      - (if sub ≠ 0 ∧ l.subscript = 0 then (CHAR_W : Int) else 0))
    (hal : l.alignment &&& RIGHT = RIGHT)
    (hdeg : correctDegree name = name)
    (hb1 : -32762 ≤ ((name.length : Int) - l.name.length) * l.size * CHAR_W)
    (hb2 : ((name.length : Int) - l.name.length) * l.size * CHAR_W ≤ 32761)
    (hx1 : 0 ≤ (l.x : Int) - D) (hx2 : (l.x : Int) - D < 65536) :
    ((l.changeName name sub).x : Int) = (l.x : Int) - D ∧
      (l.changeName name sub).name = name ∧
      (l.changeName name sub).subscript = sub := by
  refine ⟨?_, by rw [(Label.changeName_fields l name sub).1, hdeg],
    (Label.changeName_fields l name sub).2⟩
  unfold Label.changeName Label.correctForAlignmentNew
  dsimp only
  rw [hdeg, if_pos hal]
  dsimp only
  set d0 : Int := ((name.length : Int) - l.name.length) * l.size * CHAR_W with hd0
  rw [toInt16i_eq d0 (by omega) (by omega)]
  by_cases h1 : sub = 0 ∧ l.subscript ≠ 0
  · have h2 : ¬(sub ≠ 0 ∧ l.subscript = 0) := by
      rcases h1 with ⟨h1a, h1b⟩
      simp [h1a]
    rw [if_pos h1, if_neg h2, toInt16i_eq _ (by unfold CHAR_W; omega)
      (by unfold CHAR_W; omega)]
    rw [hD, if_pos h1, if_neg h2] at hx1 hx2 ⊢
    rw [u16_toNat _ (by omega) (by omega)]
    ring
  · rw [if_neg h1]
    by_cases h2 : sub ≠ 0 ∧ l.subscript = 0
    · rw [if_pos h2, toInt16i_eq _ (by unfold CHAR_W; omega)
        (by unfold CHAR_W; omega)]
      rw [hD, if_neg h1, if_pos h2] at hx1 hx2 ⊢
      rw [u16_toNat _ (by omega) (by omega)]
      ring
    · rw [if_neg h2]
      rw [hD, if_neg h1, if_neg h2] at hx1 hx2 ⊢
      rw [u16_toNat _ (by omega) (by omega)]
      ring

/-- Witness for C4: the right-aligned label "A" (size 2) at x = 100 changed
to "BC" shifts the anchor left by `(2 − 1)·2·CHAR_W = 12`, to 88. -/
theorem c4_changeName_shift_witness :
    (((⟨100, 10, 0, 2, [65], 0, RIGHT⟩ : Label).changeName [66, 67] 0).x : Int)
      = (100 : Int) - 12 ∧
    ((⟨100, 10, 0, 2, [65], 0, RIGHT⟩ : Label).changeName [66, 67] 0).name
      = [66, 67] ∧
    ((⟨100, 10, 0, 2, [65], 0, RIGHT⟩ : Label).changeName [66, 67] 0).subscript
      = 0 :=
  c4_changeName_shift _ [66, 67] 0 12 (by decide) (by decide) (by decide)
    (by decide) (by decide) (by decide) (by decide)

/-! ### Claim C8: numeric constructor formatting -/

/-- C8: a Label constructed from numeric value 0 (either the `uint16_t` or
the `float` overload) stores the single space `" "`; the integer value 12
stores `"12"`; the float value 3.5 stores `"3.50"` (exactly two decimal
places). -/
theorem c8_numeric_constructor_format (x y s c a : Nat) :
    (Label.ofU16 x y 0 s c a).name = [32] ∧
    (Label.ofFloat x y 0 s c a).name = [32] ∧
    (Label.ofU16 x y 12 s c a).name = [49, 50] ∧
    (Label.ofFloat x y (7 / 2) s c a).name = [51, 46, 53, 48] := by
  refine ⟨?_, ?_, ?_, ?_⟩
  · rw [Label.ofU16, if_neg (by decide), Label.construct_name]
    decide
  · rw [Label.ofFloat, if_neg (by norm_num), Label.construct_name]
    decide
  · rw [Label.ofU16, if_pos (by decide), Label.construct_name]
    decide
  · rw [Label.ofFloat, if_pos (by norm_num), Label.construct_name,
      formatFloat2]
    norm_num
    decide

/-! ### Claim C10: numeric changeName does not blank zero -/

/-- C10: the numeric `changeName` overloads format unconditionally — value
0 becomes `"0"` (`uint16_t`) or `"0.00"` (`float`), not a blank — so
`ValueBar::refreshValue(0)` stores and prints the digit zero: the updated
value label's content is `"0"` and the last display event of the refresh is
the print of that updated label. -/
theorem c10_changeName_zero_not_blank (l : Label) (vb : ValueBar) :
    (l.changeNameU16 0).name = [48] ∧
    (l.changeNameFloat 0).name = [48, 46, 48, 48] ∧
    (vb.refreshValueU16 0).1.label1.name = [48] ∧
    (vb.refreshValueU16 0).2.getLast? =
      some ((vb.refreshValueU16 0).1.label1.printEv) := by
  refine ⟨?_, ?_, ?_, ?_⟩
  · rw [Label.changeNameU16, (Label.changeName_fields _ _ _).1]
    decide
  · rw [Label.changeNameFloat, (Label.changeName_fields _ _ _).1,
      formatFloat2]
    norm_num
    decide
  · exact (Label.changeName_fields _ _ _).1
  · rw [ValueBar.refreshValueU16]
    dsimp only
    rw [List.getLast?_append]
    rfl

/-! ### Helper lemmas: the decoder's streaming loop -/

namespace bmpReader

theorem pushColors_append (a b : List Ev) :
    pushColors (a ++ b) = pushColors a ++ pushColors b :=
  List.filterMap_append a b _

theorem vcur_le_filePos (s : RdSt) (h : ValidSt s) : vcur s ≤ s.filePos := by
  obtain ⟨h1, _, h3⟩ := h
  unfold vcur
  split
  · exact Nat.le_refl _
  · have := h3 (by omega)
    omega

theorem pixelStep_spec (f : Nat → Nat) (s : RdSt) (h : ValidSt s) :
    ValidSt (pixelStep f s).1 ∧ vcur (pixelStep f s).1 = vcur s + 3 ∧
      pushColors (pixelStep f s).2 = [pixAt f (vcur s)] := by
  obtain ⟨h1, h2, h3⟩ := h
  by_cases hb : CHUNK ≤ s.buffidx
  · have hv : vcur s = s.filePos := by unfold vcur; rw [if_pos hb]
    refine ⟨⟨?_, ?_, ?_⟩, ?_, ?_⟩ <;>
      simp only [pixelStep, hb, if_pos, if_true, reduceIte, vcur, pushColors,
        List.filterMap_append, hv] <;>
      first
        | rfl
        | trivial
        | (intro _; trivial)
        | (intro; unfold CHUNK at *; omega)
        | (unfold CHUNK at *; omega)
  · have hb' : s.buffidx + 3 ≤ CHUNK := by unfold CHUNK at *; omega
    have hv : vcur s = s.bufStart + s.buffidx := by
      unfold vcur; rw [if_neg hb]
    refine ⟨⟨?_, ?_, ?_⟩, ?_, ?_⟩
    · simp only [pixelStep, hb, reduceIte]
      exact hb'
    · simp only [pixelStep, hb, reduceIte]
      omega
    · simp only [pixelStep, hb, reduceIte]
      intro
      exact h3 (by omega)
    · simp only [pixelStep, hb, reduceIte, vcur]
      split
      · rename_i hle
        have : s.buffidx + 3 = CHUNK := by omega
        rw [h3 (by omega)]
        omega
      · omega
    · simp only [pixelStep, hb, reduceIte, pushColors, List.filterMap_append]
      rw [hv]
      rfl

theorem rowPixels_spec (f : Nat → Nat) :
    ∀ (n : Nat) (s : RdSt), ValidSt s →
      ValidSt (rowPixels f n s).1 ∧
        vcur (rowPixels f n s).1 = vcur s + 3 * n ∧
        pushColors (rowPixels f n s).2 =
          (List.range n).map (fun c => pixAt f (vcur s + 3 * c))
  | 0, s, h => ⟨h, by simp [rowPixels], by simp [rowPixels, pushColors]⟩
  | n + 1, s, h => by
    obtain ⟨hv, hc, hp⟩ := pixelStep_spec f s h
    obtain ⟨hv2, hc2, hp2⟩ := rowPixels_spec f n (pixelStep f s).1 hv
    have hunfold : rowPixels f (n + 1) s =
        ((rowPixels f n (pixelStep f s).1).1,
          (pixelStep f s).2 ++ (rowPixels f n (pixelStep f s).1).2) := rfl
    refine ⟨by rw [hunfold]; exact hv2, ?_, ?_⟩
    · rw [hunfold]
      dsimp only
      omega
    · rw [hunfold]
      dsimp only
      rw [pushColors_append, hp, hp2, hc, List.range_succ_eq_map]
      simp only [List.map_cons, List.map_map, Nat.mul_zero, Nat.add_zero,
        List.singleton_append, List.cons.injEq]
      refine ⟨trivial, ?_⟩
      apply List.map_congr_left
      intro c _
      simp only [Function.comp_apply, Nat.succ_eq_add_one]
      congr 1
      ring

theorem rowStep_spec (f : Nat → Nat) (w pos : Nat) (s : RdSt) (h : ValidSt s)
    (hpos : s.filePos = pos → vcur s = pos) :
    ValidSt (rowStep f w pos s).1 ∧
      vcur (rowStep f w pos s).1 = pos + 3 * w ∧
      pushColors (rowStep f w pos s).2 =
        (List.range w).map (fun c => pixAt f (pos + 3 * c)) := by
  by_cases hs : s.filePos ≠ pos
  · have hunfold : rowStep f w pos s =
        ((rowPixels f w (⟨pos, s.bufStart, CHUNK⟩ : RdSt)).1,
          [Ev.endWrite, Ev.seekTo pos, Ev.startWrite] ++
            (rowPixels f w (⟨pos, s.bufStart, CHUNK⟩ : RdSt)).2) := by
      unfold rowStep
      rw [if_pos hs]
    have hv1 : ValidSt (⟨pos, s.bufStart, CHUNK⟩ : RdSt) := by
      refine ⟨Nat.le_refl _, ?_, ?_⟩
      · show CHUNK % 3 = 0
        decide
      · intro hlt
        exact absurd hlt (by show ¬CHUNK < CHUNK; omega)
    have hvc : vcur (⟨pos, s.bufStart, CHUNK⟩ : RdSt) = pos := by
      unfold vcur
      rw [if_pos (Nat.le_refl _)]
    obtain ⟨r1, r2, r3⟩ := rowPixels_spec f w ⟨pos, s.bufStart, CHUNK⟩ hv1
    rw [hunfold]
    refine ⟨r1, by dsimp only; rw [r2, hvc], ?_⟩
    dsimp only
    rw [pushColors_append, r3, hvc]
    rfl
  · push_neg at hs
    have hvc := hpos hs
    have hunfold : rowStep f w pos s =
        ((rowPixels f w s).1, [] ++ (rowPixels f w s).2) := by
      unfold rowStep
      rw [if_neg (by omega)]
    obtain ⟨r1, r2, r3⟩ := rowPixels_spec f w s h
    rw [hunfold]
    refine ⟨r1, by dsimp only; rw [r2, hvc], ?_⟩
    dsimp only
    rw [List.nil_append, r3, hvc]

theorem rowsLoop_spec (f : Nat → Nat) (w : Nat) :
    ∀ (ps : List Nat) (s : RdSt), ValidSt s →
      (∀ p, ps.head? = some p → s.filePos = p → vcur s = p) →
      List.Chain' (fun a b => b ≤ a + 3 * w) ps →
      ValidSt (rowsLoop f w ps s).1 ∧
        pushColors (rowsLoop f w ps s).2 =
          ps.flatMap (fun p => (List.range w).map (fun c => pixAt f (p + 3 * c)))
  | [], s, h, _, _ => ⟨h, by simp [rowsLoop, pushColors]⟩
  | p :: ps, s, h, hhead, hch => by
    obtain ⟨h1, h2, h3⟩ := rowStep_spec f w p s h (hhead p rfl)
    have hnext : ∀ p', ps.head? = some p' →
        (rowStep f w p s).1.filePos = p' → vcur (rowStep f w p s).1 = p' := by
      intro p' hp' hfp
      cases ps with
      | nil => simp at hp'
      | cons q qs =>
        rw [List.head?_cons, Option.some.injEq] at hp'
        have hle := (List.chain'_cons.mp hch).1
        rw [hp'] at hle
        have hvle := vcur_le_filePos _ h1
        omega
    obtain ⟨h4, h5⟩ := rowsLoop_spec f w ps (rowStep f w p s).1 h1 hnext
      (List.Chain'.tail hch)
    have hunfold : rowsLoop f w (p :: ps) s =
        ((rowsLoop f w ps (rowStep f w p s).1).1,
          (rowStep f w p s).2 ++ (rowsLoop f w ps (rowStep f w p s).1).2) := rfl
    rw [hunfold]
    refine ⟨h4, ?_⟩
    dsimp only
    rw [pushColors_append, h3, h5, List.flatMap_cons]

theorem scanTxn_append (a b : List Ev) :
    ∀ st : Bool, scanTxn (a ++ b) st = (scanTxn a st).bind (fun t => scanTxn b t) := by
  induction a with
  | nil => intro st; simp [scanTxn]
  | cons e r ih =>
    intro st
    cases e <;> cases st <;> simp [scanTxn, ih]

theorem adjRun_append (a b : List Ev) :
    ∀ st : Nat, adjRun (a ++ b) st = (adjRun a st).bind (fun t => adjRun b t) := by
  induction a with
  | nil => intro st; simp [adjRun]
  | cons e r ih =>
    intro st
    rcases st with _ | _ | _ | st <;> cases e <;> simp [adjRun, ih]

theorem rowPixels_scan (f : Nat → Nat) :
    ∀ (n : Nat) (s : RdSt),
      scanTxn (rowPixels f n s).2 true = some true ∧
        adjRun (rowPixels f n s).2 0 = some 0
  | 0, s => by constructor <;> simp [rowPixels, scanTxn, adjRun]
  | n + 1, s => by
    have hunfold : rowPixels f (n + 1) s =
        ((rowPixels f n (pixelStep f s).1).1,
          (pixelStep f s).2 ++ (rowPixels f n (pixelStep f s).1).2) := rfl
    rw [hunfold]
    dsimp only
    by_cases hb : CHUNK ≤ s.buffidx
    · have hstep : pixelStep f s =
          ((⟨s.filePos + CHUNK, s.filePos, 0 + 3⟩ : RdSt),
            [Ev.endWrite, Ev.readBuf, Ev.startWrite,
              Ev.pushColor (pixAt f (s.filePos + 0))]) := by
        unfold pixelStep
        rw [if_pos hb]
        rfl
      obtain ⟨ih1, ih2⟩ := rowPixels_scan f n ⟨s.filePos + CHUNK, s.filePos, 0 + 3⟩
      rw [hstep]
      simp [scanTxn_append, adjRun_append, scanTxn, adjRun, ih1, ih2]
    · have hstep : pixelStep f s =
          ((⟨s.filePos, s.bufStart, s.buffidx + 3⟩ : RdSt),
            [Ev.pushColor (pixAt f (s.bufStart + s.buffidx))]) := by
        unfold pixelStep
        rw [if_neg hb]
        rfl
      obtain ⟨ih1, ih2⟩ := rowPixels_scan f n ⟨s.filePos, s.bufStart, s.buffidx + 3⟩
      rw [hstep]
      simp [scanTxn_append, adjRun_append, scanTxn, adjRun, ih1, ih2]

theorem rowStep_scan (f : Nat → Nat) (w pos : Nat) (s : RdSt) :
    scanTxn (rowStep f w pos s).2 true = some true ∧
      adjRun (rowStep f w pos s).2 0 = some 0 := by
  unfold rowStep
  obtain ⟨h1, h2⟩ := rowPixels_scan f w ⟨pos, s.bufStart, CHUNK⟩
  obtain ⟨h3, h4⟩ := rowPixels_scan f w s
  by_cases hs : s.filePos ≠ pos <;>
    simp [hs, scanTxn_append, adjRun_append, scanTxn, adjRun, h1, h2, h3, h4]

theorem rowsLoop_scan (f : Nat → Nat) (w : Nat) :
    ∀ (ps : List Nat) (s : RdSt),
      scanTxn (rowsLoop f w ps s).2 true = some true ∧
        adjRun (rowsLoop f w ps s).2 0 = some 0
  | [], s => by constructor <;> simp [rowsLoop, scanTxn, adjRun]
  | p :: ps, s => by
    have hunfold : rowsLoop f w (p :: ps) s =
        ((rowsLoop f w ps (rowStep f w p s).1).1,
          (rowStep f w p s).2 ++ (rowsLoop f w ps (rowStep f w p s).1).2) := rfl
    obtain ⟨h1, h2⟩ := rowStep_scan f w p s
    obtain ⟨ih1, ih2⟩ := rowsLoop_scan f w ps (rowStep f w p s).1
    rw [hunfold]
    dsimp only
    simp [scanTxn_append, adjRun_append, h1, h2, ih1, ih2]

end bmpReader

/-! ### Helper lemmas: header decoding arithmetic -/

namespace bmpReader

theorem read32at_lt (f : Nat → Nat) (p : Nat) : read32at f p < 4294967296 := by
  unfold read32at
  have h0 := Nat.mod_lt (f p) (show 0 < 256 by norm_num)
  have h1 := Nat.mod_lt (f (p + 1)) (show 0 < 256 by norm_num)
  have h2 := Nat.mod_lt (f (p + 2)) (show 0 < 256 by norm_num)
  have h3 := Nat.mod_lt (f (p + 3)) (show 0 < 256 by norm_num)
  omega

theorem toInt32_eq_of_lt (n : Nat) (h : n < 2147483648) : toInt32 n = n := by
  unfold toInt32
  rw [Nat.mod_eq_of_lt (by omega)]
  simp [h]

theorem toInt32_eq_of_ge (n : Nat) (h1 : 2147483648 ≤ n) (h2 : n < 4294967296) :
    toInt32 n = (n : Int) - 4294967296 := by
  unfold toInt32
  rw [if_neg (by omega)]
  omega

theorem land_mask4 (n : Nat) (h : n < 4294967296) :
    n &&& 4294967292 = n / 4 * 4 := by
  apply Nat.eq_of_testBit_eq
  intro i
  rw [Nat.testBit_and]
  have hmask : (4294967292 : Nat) = (2 ^ 30 - 1) <<< 2 := by
    rw [Nat.shiftLeft_eq]
    norm_num
  have hrhs : n / 4 * 4 = (n >>> 2) <<< 2 := by
    rw [Nat.shiftRight_eq_div_pow, Nat.shiftLeft_eq]
  rw [hrhs, hmask, Nat.testBit_shiftLeft, Nat.testBit_shiftLeft,
    Nat.testBit_shiftRight, Nat.testBit_two_pow_sub_one]
  by_cases h2 : 2 ≤ i
  · have he : 2 + (i - 2) = i := by omega
    rw [he]
    by_cases h30 : i - 2 < 30
    · simp [h2, h30]
    · have hlt : n < 2 ^ i := by
        calc n < 4294967296 := h
        _ = 2 ^ 32 := by norm_num
        _ ≤ 2 ^ i := Nat.pow_le_pow_right (by norm_num) (by omega)
      simp [h2, h30, Nat.testBit_lt_two_pow hlt]
  · simp [h2]

theorem validSt_init : ValidSt ⟨34, 0, CHUNK⟩ := by
  refine ⟨Nat.le_refl _, ?_, ?_⟩
  · show CHUNK % 3 = 0
    decide
  · intro hlt
    exact absurd hlt (by show ¬CHUNK < CHUNK; omega)

theorem head_init (ps : List Nat) :
    ∀ p, ps.head? = some p → (⟨34, 0, CHUNK⟩ : RdSt).filePos = p →
      vcur ⟨34, 0, CHUNK⟩ = p := by
  intro p _ hfp
  rw [← hfp]
  rfl

/-! ### Helper lemmas: drawBody branch reductions -/

theorem drawBody_reject (f : Nat → Nat) (x y : Int) (dW dH : Nat)
    (h : read16at f 26 ≠ 1 ∨ read16at f 28 ≠ 24 ∨ read32at f 30 ≠ 0) :
    drawBody f x y dW dH = [] := by
  unfold drawBody
  split
  · split
    · rename_i hpl
      split
      · rename_i hdc
        rcases h with h | h | h
        · exact absurd hpl h
        · exact absurd hdc.1 h
        · exact absurd hdc.2 h
      · rfl
    · rfl
  · rfl

theorem drawBody_good (f : Nat → Nat) (x y : Int) (dW dH : Nat)
    (hsig : read16at f 0 = 0x4D42) (hpl : read16at f 26 = 1)
    (hdep : read16at f 28 = 24) (hcomp : read32at f 30 = 0)
    (rs : Nat) (flip : Bool) (bh w h : Int) (ps : List Nat)
    (hrs : rs = (read32at f 18 * 3 + 3) % 4294967296 &&& 4294967292)
    (hflip : flip = !(toInt32 (read32at f 22) < 0))
    (hbh : bh = if toInt32 (read32at f 22) < 0 then -toInt32 (read32at f 22)
      else toInt32 (read32at f 22))
    (hw : w = if (dW : Int) ≤ x + toInt32 (read32at f 18) - 1 then (dW : Int) - x
      else toInt32 (read32at f 18))
    (hh : h = if (dH : Int) ≤ y + bh - 1 then (dH : Int) - y else bh)
    (hps : ps = (List.range h.toNat).map (fun row =>
      if flip then (read32at f 10 + (bh.toNat - 1 - row) * rs) % 4294967296
      else (read32at f 10 + row * rs) % 4294967296)) :
    drawBody f x y dW dH =
      Ev.startWrite :: Ev.setAddrWindow x y w h ::
        ((rowsLoop f w.toNat ps ⟨34, 0, CHUNK⟩).2 ++ [Ev.endWrite]) := by
  subst hrs hflip hbh hw hh hps
  unfold drawBody
  rw [if_pos hsig, if_pos hpl, if_pos ⟨hdep, hcomp⟩]

end bmpReader

namespace bmpReader

theorem scanTxn_goodShape (evs : List Ev) (a b c d : Int)
    (h : scanTxn evs true = some true) :
    scanTxn (Ev.startWrite :: Ev.setAddrWindow a b c d ::
      (evs ++ [Ev.endWrite])) false = some false := by
  show scanTxn (evs ++ [Ev.endWrite]) true = some false
  rw [scanTxn_append, h]
  rfl

theorem adjRun_goodShape (evs : List Ev) (a b c d : Int)
    (h : adjRun evs 0 = some 0) :
    adjRun (Ev.startWrite :: Ev.setAddrWindow a b c d ::
      (evs ++ [Ev.endWrite])) 0 = some 1 := by
  show adjRun (evs ++ [Ev.endWrite]) 0 = some 1
  rw [adjRun_append, h]
  rfl

theorem drawBody_scan (f : Nat → Nat) (x y : Int) (dW dH : Nat) :
    scanTxn (drawBody f x y dW dH) false = some false ∧
      (adjRun (drawBody f x y dW dH) 0 = some 0 ∨
        adjRun (drawBody f x y dW dH) 0 = some 1) := by
  unfold drawBody
  split
  · split
    · split
      · exact ⟨scanTxn_goodShape _ _ _ _ _ (rowsLoop_scan f _ _ _).1,
          Or.inr (adjRun_goodShape _ _ _ _ _ (rowsLoop_scan f _ _ _).2)⟩
      · exact ⟨rfl, Or.inl rfl⟩
    · exact ⟨rfl, Or.inl rfl⟩
  · exact ⟨rfl, Or.inl rfl⟩

/-- C7: in every execution of `bmpReader::draw`, no storage operation (seek
or buffer refill) happens inside an open display transaction — each one is
immediately preceded by `endWrite` and immediately followed by `startWrite`
(`adjRun`), storage operations only occur while the transaction is closed
and the transaction is closed when the function returns (`scanTxn`). -/
theorem c7_bus_transaction_discipline (file : Option (Nat → Nat)) (x y : Int)
    (dispW dispH : Nat) :
    scanTxn (draw file x y dispW dispH) false = some false ∧
      adjRun (draw file x y dispW dispH) 0 = some 0 := by
  unfold draw
  split
  · exact ⟨rfl, rfl⟩
  · cases file with
    | none => exact ⟨rfl, rfl⟩
    | some f =>
      obtain ⟨h1, h2⟩ := drawBody_scan f x y dispW dispH
      constructor
      · show scanTxn (drawBody f x y dispW dispH ++ [Ev.closeFile]) false = some false
        rw [scanTxn_append, h1]
        rfl
      · show adjRun (drawBody f x y dispW dispH ++ [Ev.closeFile]) 0 = some 0
        rw [adjRun_append]
        rcases h2 with h2 | h2 <;> rw [h2] <;> rfl

/-- C5: a BMP whose header fails the allow-list (planes ≠ 1, or depth ≠ 24,
or compression ≠ 0) produces no display event at all — the trace is exactly
open-then-close — and for EVERY file the trace after a successful open ends
with the file close. -/
theorem c5_format_rejection (f : Nat → Nat) (x y : Int) (dispW dispH : Nat)
    (hx : x < (dispW : Int)) (hy : y < (dispH : Int))
    (hbad : read16at f 26 ≠ 1 ∨ read16at f 28 ≠ 24 ∨ read32at f 30 ≠ 0) :
    draw (some f) x y dispW dispH = [Ev.openFile, Ev.closeFile] ∧
      ∀ g : Nat → Nat,
        (draw (some g) x y dispW dispH).getLast? = some Ev.closeFile := by
  have hguard : ¬((dispW : Int) ≤ x ∨ (dispH : Int) ≤ y) := by omega
  constructor
  · unfold draw
    rw [if_neg hguard]
    show Ev.openFile :: (drawBody f x y dispW dispH ++ [Ev.closeFile]) =
      [Ev.openFile, Ev.closeFile]
    rw [drawBody_reject f x y dispW dispH hbad]
    rfl
  · intro g
    unfold draw
    rw [if_neg hguard]
    show (Ev.openFile :: (drawBody g x y dispW dispH ++ [Ev.closeFile])).getLast?
      = some Ev.closeFile
    rw [show Ev.openFile :: (drawBody g x y dispW dispH ++ [Ev.closeFile]) =
      (Ev.openFile :: drawBody g x y dispW dispH) ++ [Ev.closeFile] from rfl]
    exact List.getLast?_concat _

/-- Witness for C5 at the depth-8 stream and origin (0, 0). -/
theorem c5_format_rejection_witness :
    draw (some bmpDepth8) 0 0 480 320 = [Ev.openFile, Ev.closeFile] ∧
      ∀ g : Nat → Nat, (draw (some g) 0 0 480 320).getLast? = some Ev.closeFile :=
  c5_format_rejection bmpDepth8 0 0 480 320 (by norm_num) (by norm_num)
    (Or.inr (Or.inl (by decide)))

/-- C9 (amended): the only origins `bmpReader::draw` rejects before opening
the file are those at or beyond the display's right or bottom edge
(`x ≥ width` or `y ≥ height`); for those the trace is empty. -/
theorem c9_origin_guard (file : Option (Nat → Nat)) (x y : Int)
    (dispW dispH : Nat) (h : (dispW : Int) ≤ x ∨ (dispH : Int) ≤ y) :
    draw file x y dispW dispH = [] := by
  unfold draw
  rw [if_pos h]

/-- Witness for C9 (amended): x = 500 ≥ 480. -/
theorem c9_origin_guard_witness :
    draw (some bmpTiny) 500 0 480 320 = [] :=
  c9_origin_guard (some bmpTiny) 500 0 480 320 (Or.inl (by norm_num))

/-- C9 counterexample: at origin (−1000, 0) — far left of the display, so
the 1×1 image cannot intersect it — the code still opens the file and
pushes one pixel, contradicting the claim that such a request opens no file
and pushes nothing. -/
theorem c9_counterexample :
    Ev.openFile ∈ draw (some bmpTiny) (-1000) 0 480 320 ∧
      (pushColors (draw (some bmpTiny) (-1000) 0 480 320)).length = 1 := by
  constructor
  · decide
  · decide

end bmpReader

namespace bmpReader

theorem draw_good_pushes (f : Nat → Nat) (x y : Int) (dispW dispH : Nat)
    (io w32 h32 H rs : Nat) (flip : Bool) (w' h' : Nat)
    (hio : io = read32at f 10) (hw32 : w32 = read32at f 18)
    (hh32 : h32 = read32at f 22)
    (hsig : read16at f 0 = 0x4D42) (hpl : read16at f 26 = 1)
    (hdep : read16at f 28 = 24) (hcomp : read32at f 30 = 0)
    (hflip : flip = decide (h32 < 2147483648))
    (hH : H = if h32 < 2147483648 then h32 else 4294967296 - h32)
    (hrs : rs = (3 * w32 + 3) / 4 * 4)
    (hw32a : 1 ≤ w32) (hw32b : w32 < 2147483648)
    (h3w : 3 * w32 + 3 < 4294967296)
    (hH1 : 1 ≤ H) (hHb : H < 2147483648)
    (hx : 0 ≤ x) (hy : 0 ≤ y)
    (hxg : x < (dispW : Int)) (hyg : y < (dispH : Int))
    (hw' : (w' : Int) =
      if (dispW : Int) ≤ x + (w32 : Int) - 1 then (dispW : Int) - x else (w32 : Int))
    (hh' : (h' : Int) =
      if (dispH : Int) ≤ y + (H : Int) - 1 then (dispH : Int) - y else (H : Int))
    (hh'H : h' ≤ H)
    (hov : io + H * rs < 4294967296)
    (hchain : flip = true ∨ (3 * w32 % 4 = 0 ∧ w' = w32)) :
    pushColors (draw (some f) x y dispW dispH) =
      (List.range h').flatMap (fun row =>
        (List.range w').map (fun col =>
          pixAt f (io + (if flip then H - 1 - row else row) * rs + 3 * col))) := by
  have hh32lt : h32 < 4294967296 := hh32 ▸ read32at_lt f 22
  have hrspos : 4 ≤ rs := by rw [hrs]; omega
  -- decoded width
  have hA : toInt32 (read32at f 18) = (w32 : Int) := by
    rw [← hw32]
    exact toInt32_eq_of_lt _ (by omega)
  -- decoded height and row order
  have hraw : toInt32 (read32at f 22) = if flip then (H : Int) else -(H : Int) := by
    rw [← hh32]
    by_cases hcase : h32 < 2147483648
    · rw [toInt32_eq_of_lt _ hcase, hflip, hH, if_pos hcase]
      simp [hcase]
    · rw [toInt32_eq_of_ge _ (by omega) hh32lt, hflip, hH, if_neg hcase]
      simp only [hcase, decide_False, Bool.false_eq_true, if_false]
      push_cast
      omega
  have hdec : decide (toInt32 (read32at f 22) < 0) = !flip := by
    rw [hraw]
    cases flip
    · simp only [Bool.false_eq_true, if_false, Bool.not_false, decide_eq_true_eq]
      omega
    · simp only [if_true, Bool.not_true, decide_eq_false_iff_not, Int.not_lt]
      omega
  have habs : (if toInt32 (read32at f 22) < 0 then -toInt32 (read32at f 22)
      else toInt32 (read32at f 22)) = (H : Int) := by
    rw [hraw]
    cases flip
    · simp only [Bool.false_eq_true, if_false]
      rw [if_pos (by omega)]
      omega
    · simp only [if_true]
      rw [if_neg (by omega)]
  have hflip_eq : flip = !decide (toInt32 (read32at f 22) < 0) := by
    rw [hdec, Bool.not_not]
  have hrs_eq : rs = (read32at f 18 * 3 + 3) % 4294967296 &&& 4294967292 := by
    rw [← hw32, Nat.mod_eq_of_lt (by omega), land_mask4 _ (by omega), hrs]
    omega
  have hbh_eq : (H : Int) = if toInt32 (read32at f 22) < 0 then -toInt32 (read32at f 22)
      else toInt32 (read32at f 22) := habs.symm
  have hw_eq : (w' : Int) =
      if (dispW : Int) ≤ x + toInt32 (read32at f 18) - 1 then (dispW : Int) - x
      else toInt32 (read32at f 18) := by
    rw [hA]
    exact hw'
  have hh_eq : (h' : Int) =
      if (dispH : Int) ≤ y + (H : Int) - 1 then (dispH : Int) - y else (H : Int) := hh'
  -- the mod-free scanline offsets
  have hps_eq : (List.range h').map
        (fun row => io + (if flip then H - 1 - row else row) * rs) =
      (List.range ((h' : Int)).toNat).map (fun row =>
        if flip then (read32at f 10 + (((H : Int)).toNat - 1 - row) * rs) % 4294967296
        else (read32at f 10 + row * rs) % 4294967296) := by
    rw [Int.toNat_ofNat, Int.toNat_ofNat, ← hio]
    apply List.map_congr_left
    intro row hrow
    rw [List.mem_range] at hrow
    have hm1 : (H - 1 - row) * rs ≤ (H - 1) * rs := Nat.mul_le_mul_right _ (by omega)
    have hm2 : row * rs ≤ (H - 1) * rs := Nat.mul_le_mul_right _ (by omega)
    have hm3 : (H - 1) * rs + rs = H * rs := by
      rw [Nat.sub_one_mul]
      have : rs ≤ H * rs := Nat.le_mul_of_pos_left _ (by omega)
      omega
    cases flip
    · simp only [Bool.false_eq_true, if_false]
      rw [Nat.mod_eq_of_lt (by omega)]
    · simp only [if_true]
      rw [Nat.mod_eq_of_lt (by omega)]
  -- reduce draw to the scanline loop
  unfold draw
  rw [if_neg (by omega)]
  show pushColors (drawBody f x y dispW dispH ++ [Ev.closeFile]) = _
  rw [drawBody_good f x y dispW dispH hsig hpl hdep hcomp rs flip
    ((H : Nat) : Int) ((w' : Nat) : Int) ((h' : Nat) : Int)
    ((List.range h').map (fun row => io + (if flip then H - 1 - row else row) * rs))
    hrs_eq hflip_eq hbh_eq hw_eq hh_eq hps_eq]
  rw [pushColors_append]
  show pushColors ((rowsLoop f ((w' : Int)).toNat
      ((List.range h').map (fun row => io + (if flip then H - 1 - row else row) * rs))
      ⟨34, 0, CHUNK⟩).2 ++ [Ev.endWrite]) ++ pushColors [Ev.closeFile] = _
  rw [Int.toNat_ofNat, pushColors_append]
  -- the chain condition on consecutive scanline offsets
  have hchain' : List.Chain' (fun a b => b ≤ a + 3 * w')
      ((List.range h').map (fun row => io + (if flip then H - 1 - row else row) * rs)) := by
    rw [List.chain'_map]
    cases h' with
    | zero => simp
    | succ m =>
      rw [List.chain'_range_succ]
      intro i hi
      cases hfc : flip
      · rcases hchain with hfl | ⟨hpad, hww⟩
        · rw [hfc] at hfl
          exact absurd hfl (by simp)
        · simp only [Bool.false_eq_true, if_false]
          have : rs = 3 * w32 := by omega
          rw [Nat.succ_mul]
          omega
      · simp only [if_true]
        have : (H - 1 - Nat.succ i) * rs ≤ (H - 1 - i) * rs :=
          Nat.mul_le_mul_right _ (by omega)
        omega
  obtain ⟨_, hpush⟩ := rowsLoop_spec f w'
    ((List.range h').map (fun row => io + (if flip then H - 1 - row else row) * rs))
    ⟨34, 0, CHUNK⟩ validSt_init (head_init _) hchain'
  rw [hpush, List.flatMap_map]
  show (_ ++ ([] : List Nat)) ++ ([] : List Nat) = _
  rw [List.append_nil, List.append_nil]

theorem length_grid {α : Type} (g : Nat → Nat → α) (a b : Nat) :
    ((List.range a).flatMap (fun row =>
      (List.range b).map (fun col => g row col))).length = b * a := by
  rw [List.length_flatMap]
  have hconst : List.map (List.length ∘ fun row =>
      (List.range b).map (fun col => g row col)) (List.range a) =
      List.replicate a b := by
    rw [show (List.length ∘ fun row => (List.range b).map (fun col => g row col)) =
      fun _ => b from funext (by intro row; simp)]
    rw [List.map_const', List.length_range]
  rw [hconst, List.sum_replicate, smul_eq_mul, Nat.mul_comm]

/-- C2 (amended): a well-formed 24-bit uncompressed BMP of width W whose
draw rectangle lies fully on the display yields exactly W×H pushColor
calls; each push at output (row, col) is `color565(r, g, b)` of the
blue-green-red triple at stream offset
`imageOffset + srcRow × rowStride + 3 × col`, where `rowStride` is 3·W
rounded up to the next multiple of 4, `srcRow = H − 1 − row` for a positive
declared height (bottom-to-top) and `srcRow = row` for a negative declared
height (top-to-bottom) — the top-to-bottom clause holding under the
additional proviso that the stride has no padding (3·W divisible by 4),
without which the buffered seek-avoidance misreads (see the
counterexample). -/
theorem c2_decoder_round_trip (f : Nat → Nat) (x y : Int) (dispW dispH : Nat)
    (io W h32 H : Nat) (flip : Bool)
    (hio : io = read32at f 10) (hW : W = read32at f 18)
    (hh32 : h32 = read32at f 22)
    (hsig : read16at f 0 = 0x4D42) (hpl : read16at f 26 = 1)
    (hdep : read16at f 28 = 24) (hcomp : read32at f 30 = 0)
    (hflip : flip = decide (h32 < 2147483648))
    (hH : H = if h32 < 2147483648 then h32 else 4294967296 - h32)
    (hWa : 1 ≤ W) (hWb : W < 2147483648) (h3w : 3 * W + 3 < 4294967296)
    (hH1 : 1 ≤ H) (hHb : H < 2147483648)
    (hx : 0 ≤ x) (hy : 0 ≤ y)
    (hxw : x + (W : Int) ≤ (dispW : Int)) (hyh : y + (H : Int) ≤ (dispH : Int))
    (hov : io + H * ((3 * W + 3) / 4 * 4) < 4294967296)
    (hpad : flip = true ∨ 3 * W % 4 = 0) :
    pushColors (draw (some f) x y dispW dispH) =
      (List.range H).flatMap (fun row =>
        (List.range W).map (fun col =>
          pixAt f (io + (if flip then H - 1 - row else row) * ((3 * W + 3) / 4 * 4)
            + 3 * col))) ∧
    (pushColors (draw (some f) x y dispW dispH)).length = W * H := by
  have h1 := draw_good_pushes f x y dispW dispH io W h32 H ((3 * W + 3) / 4 * 4)
    flip W H hio hW hh32 hsig hpl hdep hcomp hflip hH rfl hWa hWb h3w hH1 hHb
    hx hy (by omega) (by omega)
    (by rw [if_neg (by omega)])
    (by rw [if_neg (by omega)])
    (Nat.le_refl H) hov
    (by
      rcases hpad with h | h
      · exact Or.inl h
      · exact Or.inr ⟨h, rfl⟩)
  refine ⟨h1, ?_⟩
  rw [congrArg List.length h1]
  rw [length_grid (fun row col =>
    pixAt f (io + (if flip then H - 1 - row else row) * ((3 * W + 3) / 4 * 4)
      + 3 * col)) H W]

/-- Witness for C2 at the concrete 2×2 bottom-to-top stream `bmpTwo` drawn
at the origin of a 480×320 display (row stride 8, image offset 54). -/
theorem c2_decoder_round_trip_witness :
    pushColors (draw (some bmpTwo) 0 0 480 320) =
      (List.range 2).flatMap (fun row =>
        (List.range 2).map (fun col =>
          pixAt bmpTwo (54 + (2 - 1 - row) * 8 + 3 * col))) ∧
    (pushColors (draw (some bmpTwo) 0 0 480 320)).length = 2 * 2 :=
  c2_decoder_round_trip bmpTwo 0 0 480 320 54 2 2 2 true
    (by decide) (by decide) (by decide) (by decide) (by decide) (by decide)
    (by decide) (by decide) (by decide) (by decide) (by decide) (by decide)
    (by decide) (by decide) (by decide) (by decide) (by decide) (by decide)
    (by decide) (Or.inl rfl)

/-- C2 counterexample: for the top-to-bottom (declared height −2) 99-wide
stream `bmpNoFlipPad` (row stride 300, three padding bytes per row, image
offset 34), the first pixel of output row 1 — push index 99 — is decoded
from stream offset 331 (the padding bytes of source row 0), not from the
offset `imageOffset + 1 × rowStride + 3 × 0 = 334` the claim's
no-flip clause states. -/
theorem c2_counterexample :
    (pushColors (draw (some bmpNoFlipPad) 0 0 480 320)).get? 99 =
        some (pixAt bmpNoFlipPad 331) ∧
      pixAt bmpNoFlipPad 331 ≠ pixAt bmpNoFlipPad (34 + 1 * 300 + 3 * 0) := by
  constructor
  · decide
  · decide

/-- C6 (amended): for a bottom-to-top (declared height positive) 24-bit
BMP drawn at an in-bounds origin whose right edge overruns the display
(`origin.x + W > displayWidth`), the decoder clips to exactly
`displayWidth − origin.x` columns per row (and symmetrically
`displayHeight − origin.y` rows when the bottom edge overruns), pushing
exactly the clipped pixels: push (row, col) comes from the blue-green-red
triple at `imageOffset + (H−1−row) × rowStride + 3 × col`, so every byte
consumed for a pushed pixel lies within the first `3 × clippedWidth` bytes
of its source row.  For top-to-bottom (negative declared height) bitmaps
the clipped-row gap can defeat the seek-avoidance check and this fails
(see the counterexample). -/
theorem c6_horizontal_clipping (f : Nat → Nat) (x y : Int) (dispW dispH : Nat)
    (io W h32 H w' h' : Nat)
    (hio : io = read32at f 10) (hW : W = read32at f 18)
    (hh32 : h32 = read32at f 22)
    (hsig : read16at f 0 = 0x4D42) (hpl : read16at f 26 = 1)
    (hdep : read16at f 28 = 24) (hcomp : read32at f 30 = 0)
    (hflip : h32 < 2147483648) (hH : H = h32)
    (hWa : 1 ≤ W) (hWb : W < 2147483648) (h3w : 3 * W + 3 < 4294967296)
    (hH1 : 1 ≤ H) (hHb : H < 2147483648)
    (hx : 0 ≤ x) (hy : 0 ≤ y)
    (hxg : x < (dispW : Int)) (hyg : y < (dispH : Int))
    (hclip : (dispW : Int) < x + (W : Int))
    (hwdef : (w' : Int) = (dispW : Int) - x)
    (hhdef : (h' : Int) =
      if (dispH : Int) ≤ y + (H : Int) - 1 then (dispH : Int) - y else (H : Int))
    (hh'H : h' ≤ H)
    (hov : io + H * ((3 * W + 3) / 4 * 4) < 4294967296) :
    pushColors (draw (some f) x y dispW dispH) =
      (List.range h').flatMap (fun row =>
        (List.range w').map (fun col =>
          pixAt f (io + (H - 1 - row) * ((3 * W + 3) / 4 * 4) + 3 * col))) ∧
    (pushColors (draw (some f) x y dispW dispH)).length = w' * h' := by
  have h1 := draw_good_pushes f x y dispW dispH io W h32 H ((3 * W + 3) / 4 * 4)
    true w' h' hio hW hh32 hsig hpl hdep hcomp
    (by simp [hflip]) (by rw [if_pos hflip]; exact hH) rfl hWa hWb h3w hH1 hHb
    hx hy hxg hyg
    (by rw [if_pos (by omega)]; exact hwdef)
    hhdef hh'H hov (Or.inl rfl)
  constructor
  · exact h1
  · rw [congrArg List.length h1]
    rw [length_grid (fun row col =>
      pixAt f (io + (if (true : Bool) then H - 1 - row else row)
        * ((3 * W + 3) / 4 * 4) + 3 * col)) h' w']

/-- Witness for C6: the 2×2 stream `bmpTwo` drawn at x = 479 on a 480-wide
display clips to one column and two rows. -/
theorem c6_horizontal_clipping_witness :
    pushColors (draw (some bmpTwo) 479 0 480 320) =
      (List.range 2).flatMap (fun row =>
        (List.range 1).map (fun col =>
          pixAt bmpTwo (54 + (2 - 1 - row) * 8 + 3 * col))) ∧
    (pushColors (draw (some bmpTwo) 479 0 480 320)).length = 1 * 2 :=
  c6_horizontal_clipping bmpTwo 479 0 480 320 54 2 2 2 1 2
    (by decide) (by decide) (by decide) (by decide) (by decide) (by decide)
    (by decide) (by decide) (by decide) (by decide) (by decide) (by decide)
    (by decide) (by decide) (by decide) (by decide) (by decide) (by decide)
    (by decide) (by decide) (by decide) (by decide) (by decide)

set_option maxRecDepth 40000 in
/-- C6 counterexample: for the top-to-bottom (declared height −2) 100-wide
stream `bmpNoFlipWide` (row stride 300, image offset 54) drawn at x = 420
on a 480-wide display (clipped to 60 columns), the push counts do clip, but
the first pixel of output row 1 — push index 60 — is decoded from stream
offset 234, i.e. from bytes of source row 0 beyond its truncated 180-byte
prefix, not from row 1's start `54 + 1 × 300 + 3 × 0 = 354`: the decoder
reads bytes of a source row beyond those needed for the truncated row
length, and the pushed pixel is not the clipped source pixel. -/
theorem c6_counterexample :
    (pushColors (draw (some bmpNoFlipWide) 420 0 480 320)).length = 60 * 2 ∧
      (pushColors (draw (some bmpNoFlipWide) 420 0 480 320)).get? 60 =
        some (pixAt bmpNoFlipWide 234) ∧
      pixAt bmpNoFlipWide 234 ≠ pixAt bmpNoFlipWide (54 + 1 * 300 + 3 * 0) := by
  refine ⟨?_, ?_, ?_⟩
  · decide
  · decide
  · decide

end bmpReader
